import Mathlib

/-!
Verification of the Hubris kernel build-time table generator
(`src/sys/kern/build.rs`).

The generator reads the build environment (`HUBRIS_SECURE`,
`HUBRIS_IMAGE_ID`, `HUBRIS_KCONFIG`, the target triple), emits
`consts.rs` (the EXC_RETURN constant) and `kconfig.rs` (task/region
descriptor tables plus two interrupt lookup tables).  The lookup tables
are built in one of three encodings (sorted list, single-level perfect
hash, nested perfect hash), selected by target CPU family with fallback.

Strings from the Rust side are embedded as `List Char`; machine integers
as `Nat` with explicit `% 2 ^ 32` where the hash computation wraps.
The `phash_gen` builders, the `abi` bit-flag types and the RON
deserializer are not part of the repository source under `src/`; they
are modelled from the spec and marked as such in their doc comments.
-/

namespace Hubris

/-- An interrupt number (abi::InterruptNum, a u32 newtype). -/
structure InterruptNum where
  num : Nat
deriving DecidableEq, Repr

/-- An interrupt owner (abi::InterruptOwner): task index plus notification mask. -/
structure InterruptOwner where
  task : Nat
  notification : Nat
deriving DecidableEq, Repr

/-- One interrupt assignment from the kernel config (abi::Interrupt). -/
structure Interrupt where
  irq : InterruptNum
  owner : InterruptOwner
deriving DecidableEq, Repr

/-- A task descriptor record as deserialized from HUBRIS_KCONFIG
(abi::TaskDesc).  `flags` holds the raw bit pattern of abi::TaskFlags
(the generator emits `task.flags.bits()`). -/
structure TaskDesc where
  regions : List Nat
  entry_point : Nat
  initial_stack : Nat
  priority : Nat
  index : Nat
  flags : Nat
deriving DecidableEq, Repr

/-- A memory region descriptor (abi::RegionDesc); `attributes` holds the
raw bit pattern of abi::RegionAttributes. -/
structure RegionDesc where
  base : Nat
  size : Nat
  attributes : Nat
deriving DecidableEq, Repr

/-- The root configuration document (struct KernelConfig in build.rs). -/
structure KernelConfig where
  tasks : List TaskDesc
  regions : List RegionDesc
  irqs : List Interrupt
deriving DecidableEq, Repr

/-- Numeric key of an interrupt number, used by the modelled table builders. -/
def inKey (i : InterruptNum) : Nat := i.num

/-- Modelled from the spec: the `phash` key trait for InterruptOwner is not
under src/; an owner key is embedded injectively into Nat via the Cantor
pairing of its two fields. -/
def ownerKey (o : InterruptOwner) : Nat := Nat.pair o.task o.notification

/-- build.rs lines 148-152: `irq_task_map`, the (irq, owner) pair for every
interrupt assignment, in input order. -/
def irqTaskMap (irqs : List Interrupt) : List (InterruptNum × InterruptOwner) :=
  irqs.map fun i => (i.irq, i.owner)

/-- One step of `per_task_irqs.entry(irq.owner).or_default().push(irq.irq)`
(build.rs line 156) on an association-list view of the HashMap: append the
irq to the owner's vector, creating the entry if absent. -/
def insertIrq (m : List (InterruptOwner × List InterruptNum))
    (o : InterruptOwner) (i : InterruptNum) :
    List (InterruptOwner × List InterruptNum) :=
  match m with
  | [] => [(o, [i])]
  | (p, is) :: rest =>
    if p = o then (p, is ++ [i]) :: rest else (p, is) :: insertIrq rest o i

/-- build.rs lines 154-158: the owner → interrupt-list aggregation
(`per_task_irqs`).  The Rust HashMap's `into_iter` order is arbitrary; this
definition fixes first-occurrence order as one admissible order, and the
theorems that depend on the order quantify over all permutations of it. -/
def perTaskIrqs (irqs : List Interrupt) : List (InterruptOwner × List InterruptNum) :=
  irqs.foldl (fun m i => insertIrq m i.owner i.irq) []

/-- Modelled from the spec: `phash_gen::OwnedPerfectHashMap` is not under
src/; slot index of a key for multiplier `m` in a table of size `2 ^ s`:
the top `s` bits of the 32-bit wrapping product `key * m`. -/
def slot (kv : κ → Nat) (m s : Nat) (k : κ) : Nat :=
  (kv k * m % 2 ^ 32) >>> (32 - s)

/-- Modelled from the spec: table size exponent, the smallest `s` with
`n ≤ 2 ^ s` (table sized to the next power of two at or above the key count). -/
def sizeExp (n : Nat) : Nat :=
  ((List.range 33).find? fun s => n ≤ 2 ^ s).getD 33

/-- The candidate multiplier `m` is collision-free: all keys map to distinct
slots. -/
def slotsOk (kv : κ → Nat) (m s : Nat) (entries : List (κ × ν)) : Bool :=
  decide (entries.map (fun e => slot kv m s e.1)).Nodup

/-- Modelled from the spec: the bounded deterministic multiplier sequence
searched by the single-level builder. -/
def mCandidates : List Nat :=
  [0x9E3779B1, 0x85EBCA77, 0xC2B2AE35, 0x27D4EB2F]

/-- Modelled from the spec: the bounded deterministic multiplier sequence
searched per bucket by the nested builder. -/
def gCandidates : List Nat :=
  [0x9E3779B1, 0x85EBCA77, 0xC2B2AE35, 0x27D4EB2F, 0x165667B1, 0xD2B74407,
   0x61C88647, 0x9E333779, 0xB5297A4D, 0x68E31DA5, 0x1B56C4E9, 0xCC9E2D51,
   0x1B873593, 0xE6546B65, 0x85EBCA6B, 0xC2B2AE3D]

/-- A built single-level perfect hash table (phash::PerfectHashMap):
multiplier plus slot vector; empty slots hold `none` (emitted as the
invalid-sentinel entry). -/
structure SingleMap (κ ν : Type) where
  m : Nat
  values : List (Option (κ × ν))
deriving DecidableEq

/-- A built nested perfect hash table (phash::NestedPerfectHashMap):
first-level multiplier `m`, per-bucket multipliers `g`, per-bucket slot
vectors. -/
structure NestedMap (κ ν : Type) where
  m : Nat
  g : List Nat
  values : List (List (Option (κ × ν)))
deriving DecidableEq

/-- Modelled from the spec: `phash_gen::OwnedPerfectHashMap::build`.
Searches the bounded multiplier sequence for a collision-free multiplier;
on success lays each entry out at its slot, on exhaustion reports failure
(`none`). -/
def singleHashBuild (kv : κ → Nat) (entries : List (κ × ν)) :
    Option (SingleMap κ ν) :=
  let s := sizeExp entries.length
  match mCandidates.find? (fun m => slotsOk kv m s entries) with
  | some m =>
    some ⟨m, (List.range (2 ^ s)).map fun j =>
      entries.find? fun e => slot kv m s e.1 == j⟩
  | none => none

/-- The (deterministic) first-level multiplier of the modelled nested
builder. -/
def nestedM : Nat := 1

/-- The bucket of an entry under the nested scheme's first level. -/
def bucketEntries (kv : κ → Nat) (be : Nat) (entries : List (κ × ν)) (i : Nat) :
    List (κ × ν) :=
  entries.filter fun e => slot kv nestedM be e.1 == i

/-- The per-bucket multiplier found for bucket `i`, if any. -/
def bucketG (kv : κ → Nat) (be : Nat) (entries : List (κ × ν)) (i : Nat) :
    Option Nat :=
  gCandidates.find? fun g =>
    slotsOk kv g (sizeExp (bucketEntries kv be entries i).length)
      (bucketEntries kv be entries i)

/-- Modelled from the spec: `phash_gen::OwnedNestedPerfectHashMap::build`.
A first-level hash partitions the keys into buckets; each bucket is
independently given a collision-free multiplier from the bounded sequence,
or the whole construction fails. -/
def nestedHashBuild (kv : κ → Nat) (entries : List (κ × ν)) :
    Option (NestedMap κ ν) :=
  let be := sizeExp entries.length
  if ((List.range (2 ^ be)).map fun i => bucketG kv be entries i).all Option.isSome then
    some ⟨nestedM,
      (List.range (2 ^ be)).map fun i => (bucketG kv be entries i).getD 0,
      (List.range (2 ^ be)).map fun i =>
        let bs := bucketEntries kv be entries i
        let se := sizeExp bs.length
        let g := (bucketG kv be entries i).getD 0
        (List.range (2 ^ se)).map fun j => bs.find? fun e => slot kv g se e.1 == j⟩
  else none

/-- Modelled from the spec: `phash_gen::OwnedSortedList::build`, which
sorts the entries by key (total order on keys; always succeeds). -/
def sortedListBuild (kv : κ → Nat) (entries : List (κ × ν)) : List (κ × ν) :=
  entries.insertionSort fun a b => kv a.1 ≤ kv b.1

/-- A build failure, aborting the build (Err propagated by `?`, or the
panic on an unknown target, build.rs line 331). -/
inductive BuildError where
  | badImageId
  | badKconfig
  | taskMapBuildFailed
  | irqMapBuildFailed
  | unknownTarget (target : List Char)
deriving DecidableEq

/-- An emitted lookup table for one direction, tagged with its encoding. -/
inductive Table (κ ν : Type) where
  | sorted (values : List (κ × ν))
  | single (t : SingleMap κ ν)
  | nested (t : NestedMap κ ν)
deriving DecidableEq

/-- build.rs lines 227-249 / 277-302 (the block appears once per mapping
direction): try the single-level build, fall back to the nested build, and
propagate the nested failure as a build error with the direction's context. -/
def buildHashTable (kv : κ → Nat) (err : BuildError) (entries : List (κ × ν)) :
    Except BuildError (Table κ ν) :=
  match singleHashBuild kv entries with
  | some t => .ok (.single t)
  | none =>
    match nestedHashBuild kv entries with
    | some t => .ok (.nested t)
    | none => .error err

/-- The two emitted lookup tables (HUBRIS_IRQ_TASK_LOOKUP and
HUBRIS_TASK_IRQ_LOOKUP). -/
structure TablePair where
  irqTask : Table InterruptNum InterruptOwner
  taskIrq : Table InterruptOwner (List InterruptNum)
deriving DecidableEq

/-- The characters of the target-family name checked at build.rs line 189. -/
def thumbv6m : List Char := ['t', 'h', 'u', 'm', 'b', 'v', '6', 'm']

/-- The characters of the target-family name checked at build.rs line 223. -/
def thumbv7m : List Char := ['t', 'h', 'u', 'm', 'b', 'v', '7', 'm']

/-- The characters of the target-family name checked at build.rs line 224. -/
def thumbv7em : List Char := ['t', 'h', 'u', 'm', 'b', 'v', '7', 'e', 'm']

/-- The characters of the target-family name checked at build.rs line 225. -/
def thumbv8m : List Char := ['t', 'h', 'u', 'm', 'b', 'v', '8', 'm']

/-- build.rs lines 188-332: dispatch on the target family.  thumbv6m builds
both tables as sorted lists; thumbv7m/thumbv7em/thumbv8m build the task
table then the irq table through the hash fallback chain; any other target
panics.  This is the tables-only view of the dispatch: `generateStatics`
below performs the same dispatch interleaved with the incremental
kconfig.rs writes (so a failure after the first table write can be
observed in the file state). -/
def buildTables (target : List Char)
    (irqE : List (InterruptNum × InterruptOwner))
    (taskE : List (InterruptOwner × List InterruptNum)) :
    Except BuildError TablePair :=
  if thumbv6m.isPrefixOf target then
    .ok ⟨.sorted (sortedListBuild inKey irqE), .sorted (sortedListBuild ownerKey taskE)⟩
  else if thumbv7m.isPrefixOf target || thumbv7em.isPrefixOf target
      || thumbv8m.isPrefixOf target then
    match buildHashTable ownerKey .taskMapBuildFailed taskE with
    | .error e => .error e
    | .ok tt =>
      match buildHashTable inKey .irqMapBuildFailed irqE with
      | .error e => .error e
      | .ok it => .ok ⟨it, tt⟩
  else
    .error (.unknownTarget target)

/-- build.rs lines 37-51: the EXC_RETURN constant, chosen from the
HUBRIS_SECURE environment variable (`none` models an absent variable,
build_util::env_var returning Err). -/
def excReturnConst (secure : Option (List Char)) : Nat :=
  match secure with
  | some s => if s = ['0'] then 0xFFFFFFAC else 0xFFFFFFED
  | none => 0xFFFFFFED

/-- Decimal parse of `str::parse::<u64>` (build.rs line 58): an optional
leading plus sign, then a nonempty all-digit sequence, in u64 range;
anything else fails. -/
def parseU64 (cs : List Char) : Option Nat :=
  let ds := match cs with
    | '+' :: rest => rest
    | _ => cs
  match ds.foldl
      (fun acc c =>
        match acc with
        | none => none
        | some n => if c.isDigit then some (n * 10 + (c.toNat - 48)) else none)
      (some 0) with
  | some n => if ds = [] then none else if n < 2 ^ 64 then some n else none
  | none => none

/-- Modelled from the spec: the defined bits of abi::TaskFlags (the abi
crate is not under src/); a flags bit pattern is structurally valid when it
uses only defined bits. -/
def taskFlagsValid (bits : Nat) : Bool := bits &&& 1 == bits

/-- Modelled from the spec: the defined bits of abi::RegionAttributes (the
abi crate is not under src/). -/
def regionAttrsValid (bits : Nat) : Bool := bits &&& 63 == bits

/-- Modelled from the spec: abi::REGIONS_PER_TASK (the abi crate is not
under src/); a task's region list is a fixed-size array of exactly this
many region references. -/
def REGIONS_PER_TASK : Nat := 8

/-- Modelled from the spec: the RON deserialization of the abi record types
(build.rs lines 60-62 via serde; not under src/) rejects a document whose
task-flags or region-attribute bit pattern is structurally invalid, or
whose task region list does not have exactly the fixed array size, before
any output is produced. -/
def deserializeKconfig (raw : KernelConfig) : Option KernelConfig :=
  if raw.tasks.all
        (fun t => taskFlagsValid t.flags
          && t.regions.length == REGIONS_PER_TASK)
      && raw.regions.all (fun r => regionAttrsValid r.attributes) then
    some raw
  else none

/-- The build environment, read once: HUBRIS_SECURE, HUBRIS_IMAGE_ID,
HUBRIS_KCONFIG (already split at the RON level: `none` is a document the
deserializer rejects outright), and the target triple. -/
structure Env where
  hubrisSecure : Option (List Char)
  hubrisImageId : Option (List Char)
  hubrisKconfig : Option KernelConfig
  target : List Char
deriving DecidableEq

/-- The parsed HUBRIS_IMAGE_ID of an environment, if present and numeric. -/
def imageIdOf (env : Env) : Option Nat := env.hubrisImageId.bind parseU64

/-- One task descriptor as written into kconfig.rs (build.rs lines 82-100);
`flags` is the emitted `task.flags.bits()` value. -/
structure EmittedTaskDesc where
  regions : List Nat
  entry_point : Nat
  initial_stack : Nat
  priority : Nat
  index : Nat
  flags : Nat
deriving DecidableEq, Repr

/-- The field-by-field rendering of one task descriptor (the writeln
sequence at build.rs lines 83-99). -/
def emitTaskDesc (t : TaskDesc) : EmittedTaskDesc :=
  ⟨t.regions, t.entry_point, t.initial_stack, t.priority, t.index, t.flags⟩

/-- The task descriptor array written into kconfig.rs (build.rs lines
78-101), in task-table order. -/
def emittedTaskDescs (cfg : KernelConfig) : List EmittedTaskDesc :=
  cfg.tasks.map emitTaskDesc

/-- One incremental write to kconfig.rs, in the order build.rs performs
them: header plus image id and task count (lines 68-76), the task
descriptor array (78-101), the two MaybeUninit table spaces (103-116), the
region descriptor array (118-135), and then the lookup tables — on a
thumbv6m target one write! emits both sorted tables at once (lines
210-222); on a hash-capable target the task→irq table is written first
(lines 236-244 or 264-273) and the irq→task table after it (lines 291-298
or 320-328), so each is a separate write. -/
inductive EmitStep where
  | header (imageId : Nat) (taskCount : Nat)
  | taskDescs (ts : List EmittedTaskDesc)
  | tableSpaces
  | regionDescs (rs : List RegionDesc)
  | sortedTables (irqT : List (InterruptNum × InterruptOwner))
      (taskT : List (InterruptOwner × List InterruptNum))
  | taskIrqTable (t : Table InterruptOwner (List InterruptNum))
  | irqTaskTable (t : Table InterruptNum InterruptOwner)
deriving DecidableEq

/-- Everything kconfig.rs contains before the lookup-table section. -/
def preTableSteps (imageId : Nat) (cfg : KernelConfig) : List EmitStep :=
  [.header imageId cfg.tasks.length, .taskDescs (emittedTaskDescs cfg),
   .tableSpaces, .regionDescs cfg.regions]

/-- The two output files of the generator; `none` means the file was never
created.  `consts` holds the EXC_RETURN constant written to consts.rs
(its other line is a fixed comment); `kconfig` holds the write steps
performed on kconfig.rs so far.  The emitted bytes are a pure function of
this structure, so equality of `Fs` values is equality of file contents. -/
structure Fs where
  consts : Option Nat
  kconfig : Option (List EmitStep)
deriving DecidableEq

/-- The empty output directory at the start of a build. -/
def fs0 : Fs := ⟨none, none⟩

/-- build.rs lines 21-54 (generate_consts): create consts.rs and write the
EXC_RETURN constant for the HUBRIS_SECURE flag; no other input is read. -/
def generateConsts (env : Env) (fs : Fs) : Fs :=
  { fs with consts := some (excReturnConst env.hubrisSecure) }

/-- True when the file system contains no emitted lookup table in any
encoding. -/
def noTables (fs : Fs) : Bool :=
  match fs.kconfig with
  | none => true
  | some steps =>
    !(steps.any fun s =>
      match s with
      | .sortedTables _ _ => true
      | .taskIrqTable _ => true
      | .irqTaskTable _ => true
      | _ => false)

/-- build.rs lines 56-335 (generate_statics): parse HUBRIS_IMAGE_ID, then
deserialize HUBRIS_KCONFIG; only then create kconfig.rs and write it
incrementally; a parse failure leaves the file system untouched.  The
table section follows the program's write order: a thumbv6m target emits
both sorted tables in one write; a hash-capable target first writes the
task→irq table (so a task→irq construction failure leaves only the
pre-table content) and then the irq→task table (so an irq→task
construction failure leaves the pre-table content plus the already written
task→irq table); the unknown-target panic happens before any table write.
`taskOrder` is the arbitrary iteration order in which the HashMap behind
`per_task_irqs` yields its entries; it is a permutation of
`perTaskIrqs cfg.irqs`. -/
def generateStatics (env : Env)
    (taskOrder : List (InterruptOwner × List InterruptNum)) (fs : Fs) :
    Fs × Option BuildError :=
  match imageIdOf env with
  | none => (fs, some .badImageId)
  | some imageId =>
    match env.hubrisKconfig with
    | none => (fs, some .badKconfig)
    | some raw =>
      match deserializeKconfig raw with
      | none => (fs, some .badKconfig)
      | some cfg =>
        if thumbv6m.isPrefixOf env.target then
          ({ fs with kconfig := some (preTableSteps imageId cfg ++
            [.sortedTables (sortedListBuild inKey (irqTaskMap cfg.irqs))
              (sortedListBuild ownerKey taskOrder)]) }, none)
        else if thumbv7m.isPrefixOf env.target
            || thumbv7em.isPrefixOf env.target
            || thumbv8m.isPrefixOf env.target then
          match buildHashTable ownerKey .taskMapBuildFailed taskOrder with
          | .error e =>
            ({ fs with kconfig := some (preTableSteps imageId cfg) }, some e)
          | .ok tt =>
            match buildHashTable inKey .irqMapBuildFailed
                (irqTaskMap cfg.irqs) with
            | .error e =>
              ({ fs with kconfig := some (preTableSteps imageId cfg ++
                [.taskIrqTable tt]) }, some e)
            | .ok it =>
              ({ fs with kconfig := some (preTableSteps imageId cfg ++
                [.taskIrqTable tt, .irqTaskTable it]) }, none)
        else
          ({ fs with kconfig := some (preTableSteps imageId cfg) },
            some (.unknownTarget env.target))

/-- build.rs lines 12-19 (main): generate_consts, then generate_statics. -/
def mainBuild (env : Env)
    (taskOrder : List (InterruptOwner × List InterruptNum)) :
    Fs × Option BuildError :=
  generateStatics env taskOrder (generateConsts env fs0)

/-- The value list stored for an owner in the association-list view of
`per_task_irqs` (a HashMap lookup). -/
def lookupOwner (m : List (InterruptOwner × List InterruptNum))
    (o : InterruptOwner) : Option (List InterruptNum) :=
  (m.find? fun p => p.1 == o).map Prod.snd

/-- Fixture: a config whose single owner receives its interrupts out of
numeric order (assignment 6 before 5). -/
def cfgOutOfOrder : KernelConfig :=
  ⟨[], [], [⟨⟨6⟩, ⟨0, 1⟩⟩, ⟨⟨5⟩, ⟨0, 1⟩⟩]⟩

/-- Fixture: a config accepted by the build (full fixed-size region list,
valid flags) whose only task declares index 1 (at table position 0). -/
def cfgIndexSkew : KernelConfig :=
  ⟨[⟨[0, 0, 0, 0, 0, 0, 0, 0], 0, 0, 0, 1, 0⟩], [], []⟩

/-- Fixture: environment running `cfgIndexSkew` on a thumbv6m target. -/
def envIndexSkew : Env := ⟨none, some ['1'], some cfgIndexSkew, thumbv6m⟩

/-- Fixture: a two-entry key set on which the modelled single-level search
exhausts its multiplier budget but the nested construction succeeds. -/
def entriesFallback : List (InterruptNum × InterruptOwner) :=
  [(⟨0⟩, ⟨0, 1⟩), (⟨2147483665⟩, ⟨1, 1⟩)]

/-- Fixture: a config with a duplicated interrupt number, on which both
hash constructions for the irq→owner table fail. -/
def cfgDupIrq : KernelConfig := ⟨[], [], [⟨⟨5⟩, ⟨0, 1⟩⟩, ⟨⟨5⟩, ⟨0, 1⟩⟩]⟩

/-- Fixture: environment running `cfgDupIrq` on a thumbv7m target, so table
construction fails after the descriptors are written. -/
def envDupIrq : Env := ⟨none, some ['1'], some cfgDupIrq, thumbv7m⟩

/-- Fixture: a three-assignment, two-owner config for the determinism
witness. -/
def cfgThreeIrqs : KernelConfig :=
  ⟨[], [], [⟨⟨5⟩, ⟨0, 1⟩⟩, ⟨⟨6⟩, ⟨1, 2⟩⟩, ⟨⟨7⟩, ⟨0, 4⟩⟩]⟩

/-- Fixture: environment running `cfgThreeIrqs` on a thumbv6m target. -/
def envThreeIrqs : Env := ⟨some ['0'], some ['4', '2'], some cfgThreeIrqs, thumbv6m⟩

/-- Fixture: a config whose only task is well-formed except for an
undefined flags bit (pattern 2). -/
def cfgBadFlags : KernelConfig :=
  ⟨[⟨[0, 0, 0, 0, 0, 0, 0, 0], 0, 0, 0, 0, 2⟩], [], []⟩

/-- Fixture: environment running `cfgBadFlags`. -/
def envBadFlags : Env := ⟨none, some ['1'], some cfgBadFlags, thumbv6m⟩

/-- Fixture: environment with an unknown (x86) target. -/
def envUnknownTarget : Env :=
  ⟨none, some ['1'], some cfgThreeIrqs, ['x', '8', '6']⟩

/-- Fixture: a one-assignment irq key set. -/
def entriesOneIrq : List (InterruptNum × InterruptOwner) := [(⟨5⟩, ⟨0, 1⟩)]

/-- Fixture: a one-owner task key set. -/
def entriesOneOwner : List (InterruptOwner × List InterruptNum) :=
  [(⟨0, 1⟩, [⟨5⟩])]

/-- Fixture: the task→irq table the hash chain builds for `cfgDupIrq`
(its single owner key hashes to the one slot of a size-1 table under the
first candidate multiplier), written to kconfig.rs before the irq→task
construction fails. -/
def taskTableDupIrq : Table InterruptOwner (List InterruptNum) :=
  .single ⟨0x9E3779B1, [some (⟨0, 1⟩, [⟨5⟩, ⟨5⟩])]⟩

/-- `find?` does not depend on the order of the list when at most one
element can satisfy the predicate. -/
theorem find?_eq_of_perm_of_unique {α : Type} {p : α → Bool} {l1 l2 : List α}
    (hp : l1.Perm l2)
    (hu : ∀ a ∈ l1, ∀ b ∈ l1, p a = true → p b = true → a = b) :
    l1.find? p = l2.find? p := by
  cases h1 : l1.find? p with
  | none =>
    cases h2 : l2.find? p with
    | none => rfl
    | some b =>
      have hb : b ∈ l1 := hp.mem_iff.mpr (List.mem_of_find?_eq_some h2)
      exact absurd (List.find?_some h2) (List.find?_eq_none.mp h1 b hb)
  | some a =>
    have ha := List.mem_of_find?_eq_some h1
    cases h2 : l2.find? p with
    | none =>
      have hal2 : a ∈ l2 := hp.mem_iff.mp ha
      exact absurd (List.find?_some h1) (List.find?_eq_none.mp h2 a hal2)
    | some b =>
      have hb : b ∈ l1 := hp.mem_iff.mpr (List.mem_of_find?_eq_some h2)
      exact congrArg some (hu a ha b hb (List.find?_some h1) (List.find?_some h2))

/-- Two list-prefixes of a common list are comparable: the shorter is a
prefix of the longer. -/
theorem isPrefixOf_of_both {l1 l2 t : List Char} (hl : l1.length ≤ l2.length)
    (h1 : l1.isPrefixOf t = true) (h2 : l2.isPrefixOf t = true) :
    l1.isPrefixOf l2 = true := by
  induction t generalizing l1 l2 with
  | nil =>
    cases l1 with
    | nil => cases l2 <;> rfl
    | cons a as => simp [List.isPrefixOf] at h1
  | cons c ts ih =>
    cases l1 with
    | nil => cases l2 <;> rfl
    | cons a as =>
      cases l2 with
      | nil => simp at hl
      | cons b bs =>
        simp only [List.isPrefixOf, Bool.and_eq_true, beq_iff_eq] at h1 h2 ⊢
        exact ⟨h1.1.trans h2.1.symm, ih (by simpa using hl) h1.2 h2.2⟩

/-- A target in the thumbv7m/thumbv7em/thumbv8m family is not a thumbv6m
target, so the thumbv6m branch of the dispatch is not taken. -/
theorem thumbv6m_isPrefixOf_eq_false {target : List Char}
    (h : (thumbv7m.isPrefixOf target || thumbv7em.isPrefixOf target
      || thumbv8m.isPrefixOf target) = true) :
    thumbv6m.isPrefixOf target = false := by
  cases h6 : thumbv6m.isPrefixOf target with
  | false => rfl
  | true =>
    simp only [Bool.or_eq_true] at h
    rcases h with (h7m | h7em) | h8
    · have := isPrefixOf_of_both (by decide : thumbv6m.length ≤ thumbv7m.length) h6 h7m
      simp [thumbv6m, thumbv7m, List.isPrefixOf] at this
    · have := isPrefixOf_of_both (by decide : thumbv6m.length ≤ thumbv7em.length) h6 h7em
      simp [thumbv6m, thumbv7em, List.isPrefixOf] at this
    · have := isPrefixOf_of_both (by decide : thumbv6m.length ≤ thumbv8m.length) h6 h8
      simp [thumbv6m, thumbv8m, List.isPrefixOf] at this

/-- Sorting by an injective numeric key is canonical: any two permutations
of a duplicate-free-keyed entry list sort to the same list. -/
theorem sortedListBuild_eq_of_perm {κ ν : Type} (kv : κ → Nat)
    (hinj : Function.Injective kv) {l1 l2 : List (κ × ν)}
    (hp : l1.Perm l2) (hnd : (l1.map Prod.fst).Nodup) :
    sortedListBuild kv l1 = sortedListBuild kv l2 := by
  unfold sortedListBuild
  have htot : IsTotal (κ × ν) fun a b => kv a.1 ≤ kv b.1 :=
    ⟨fun a b => Nat.le_total _ _⟩
  have htr : IsTrans (κ × ν) fun a b => kv a.1 ≤ kv b.1 :=
    ⟨fun a b c => Nat.le_trans⟩
  have hanti : IsAntisymm (κ × ν) fun a b => kv a.1 < kv b.1 :=
    ⟨fun a b hab hba => absurd (Nat.lt_trans hab hba) (Nat.lt_irrefl _)⟩
  have hperm :
      (l1.insertionSort fun a b => kv a.1 ≤ kv b.1).Perm
        (l2.insertionSort fun a b => kv a.1 ≤ kv b.1) :=
    ((List.perm_insertionSort _ l1).trans hp).trans
      (List.perm_insertionSort _ l2).symm
  have strict : ∀ l : List (κ × ν), (l.map Prod.fst).Nodup →
      List.Pairwise (fun a b : κ × ν => kv a.1 < kv b.1)
        (l.insertionSort fun a b => kv a.1 ≤ kv b.1) := by
    intro l hl
    have hs := List.sorted_insertionSort (fun a b : κ × ν => kv a.1 ≤ kv b.1) l
    have hnds : ((l.insertionSort fun a b => kv a.1 ≤ kv b.1).map Prod.fst).Nodup :=
      (((List.perm_insertionSort _ l).map Prod.fst).nodup_iff).mpr hl
    have hne : List.Pairwise (fun a b : κ × ν => a.1 ≠ b.1)
        (l.insertionSort fun a b => kv a.1 ≤ kv b.1) :=
      List.pairwise_map.mp hnds
    exact (hs.and hne).imp fun hab =>
      Nat.lt_of_le_of_ne hab.1 fun he => hab.2 (hinj he)
  have hnd2 : (l2.map Prod.fst).Nodup := ((hp.map Prod.fst).nodup_iff).mp hnd
  exact List.eq_of_perm_of_sorted hperm (strict l1 hnd) (strict l2 hnd2)

/-- The collision-freedom test for a multiplier depends only on the entry
multiset. -/
theorem slotsOk_eq_of_perm {κ ν : Type} (kv : κ → Nat) (m s : Nat)
    {l1 l2 : List (κ × ν)} (hp : l1.Perm l2) :
    slotsOk kv m s l1 = slotsOk kv m s l2 :=
  decide_eq_decide.mpr (hp.map fun e => slot kv m s e.1).nodup_iff

/-- Entries whose slots are collision-free satisfy the uniqueness condition
needed for slot lookup. -/
theorem slot_unique {κ ν : Type} (kv : κ → Nat) (m s : Nat)
    {l : List (κ × ν)} (hok : slotsOk kv m s l = true) (j : Nat) :
    ∀ a ∈ l, ∀ b ∈ l,
      (slot kv m s a.1 == j) = true → (slot kv m s b.1 == j) = true → a = b := by
  intro a ha b hb hja hjb
  have hnd : (l.map fun e => slot kv m s e.1).Nodup := of_decide_eq_true hok
  exact List.inj_on_of_nodup_map hnd ha hb
    ((eq_of_beq hja).trans (eq_of_beq hjb).symm)

/-- The modelled single-level perfect-hash construction depends only on the
entry multiset, not on the order entries arrive in. -/
theorem singleHashBuild_eq_of_perm {κ ν : Type} (kv : κ → Nat)
    {l1 l2 : List (κ × ν)} (hp : l1.Perm l2) :
    singleHashBuild kv l1 = singleHashBuild kv l2 := by
  have hlen : l1.length = l2.length := hp.length_eq
  have hpred : (fun m => slotsOk kv m (sizeExp l2.length) l1) =
      fun m => slotsOk kv m (sizeExp l2.length) l2 :=
    funext fun m => slotsOk_eq_of_perm kv m _ hp
  simp only [singleHashBuild, hlen]
  rw [hpred]
  cases hfind : mCandidates.find? fun m => slotsOk kv m (sizeExp l2.length) l2 with
  | none => rfl
  | some m =>
    have hok2 : slotsOk kv m (sizeExp l2.length) l2 = true := by
      simpa using List.find?_some hfind
    have hok1 : slotsOk kv m (sizeExp l2.length) l1 = true :=
      (slotsOk_eq_of_perm kv m _ hp).trans hok2
    simp only [Option.some.injEq, SingleMap.mk.injEq, true_and]
    apply List.map_congr_left
    intro j _
    exact find?_eq_of_perm_of_unique hp (slot_unique kv m _ hok1 j)

/-- The per-bucket multiplier search depends only on the entry multiset. -/
theorem bucketG_eq_of_perm {κ ν : Type} (kv : κ → Nat) (be : Nat)
    {l1 l2 : List (κ × ν)} (hp : l1.Perm l2) (i : Nat) :
    bucketG kv be l1 i = bucketG kv be l2 i := by
  have hb : (bucketEntries kv be l1 i).Perm (bucketEntries kv be l2 i) :=
    hp.filter _
  have hlen := hb.length_eq
  unfold bucketG
  have hpred : (fun g => slotsOk kv g
        (sizeExp (bucketEntries kv be l1 i).length) (bucketEntries kv be l1 i))
      = fun g => slotsOk kv g
        (sizeExp (bucketEntries kv be l2 i).length) (bucketEntries kv be l2 i) := by
    funext g
    rw [hlen, slotsOk_eq_of_perm kv g _ hb]
  rw [hpred]

/-- The modelled nested perfect-hash construction depends only on the entry
multiset, not on the order entries arrive in. -/
theorem nestedHashBuild_eq_of_perm {κ ν : Type} (kv : κ → Nat)
    {l1 l2 : List (κ × ν)} (hp : l1.Perm l2) :
    nestedHashBuild kv l1 = nestedHashBuild kv l2 := by
  have hlen : l1.length = l2.length := hp.length_eq
  have hbg : ∀ i, bucketG kv (sizeExp l2.length) l1 i
      = bucketG kv (sizeExp l2.length) l2 i :=
    fun i => bucketG_eq_of_perm kv _ hp i
  have hbperm : ∀ i, (bucketEntries kv (sizeExp l2.length) l1 i).Perm
      (bucketEntries kv (sizeExp l2.length) l2 i) :=
    fun i => hp.filter _
  simp only [nestedHashBuild, hlen]
  have hcond : (List.range (2 ^ sizeExp l2.length)).map
        (fun i => bucketG kv (sizeExp l2.length) l1 i)
      = (List.range (2 ^ sizeExp l2.length)).map
        fun i => bucketG kv (sizeExp l2.length) l2 i :=
    List.map_congr_left fun i _ => hbg i
  rw [hcond]
  by_cases hall : ((List.range (2 ^ sizeExp l2.length)).map
      fun i => bucketG kv (sizeExp l2.length) l2 i).all Option.isSome = true
  · simp only [hall, if_true, Option.some.injEq, NestedMap.mk.injEq, true_and]
    constructor
    · exact List.map_congr_left fun i _ => by rw [hbg i]
    · apply List.map_congr_left
      intro i hi
      obtain ⟨g, hg⟩ : ∃ g, bucketG kv (sizeExp l2.length) l2 i = some g := by
        have hmem : bucketG kv (sizeExp l2.length) l2 i ∈
            (List.range (2 ^ sizeExp l2.length)).map
              fun i => bucketG kv (sizeExp l2.length) l2 i :=
          List.mem_map_of_mem _ hi
        exact Option.isSome_iff_exists.mp (List.all_eq_true.mp hall _ hmem)
      have hbp := hbperm i
      have hblen := hbp.length_eq
      simp only [hbg i, hg, Option.getD_some]
      rw [hblen]
      apply List.map_congr_left
      intro j _
      have hok2 : slotsOk kv g
          (sizeExp (bucketEntries kv (sizeExp l2.length) l2 i).length)
          (bucketEntries kv (sizeExp l2.length) l2 i) = true := by
        simpa using List.find?_some hg
      have hok1 : slotsOk kv g
          (sizeExp (bucketEntries kv (sizeExp l2.length) l2 i).length)
          (bucketEntries kv (sizeExp l2.length) l1 i) = true :=
        (slotsOk_eq_of_perm kv g _ hbp).trans hok2
      exact find?_eq_of_perm_of_unique hbp (slot_unique kv g _ hok1 j)
  · simp [hall]

/-- The hash-with-fallback chain depends only on the entry multiset. -/
theorem buildHashTable_eq_of_perm {κ ν : Type} [DecidableEq κ] [DecidableEq ν]
    (kv : κ → Nat) (err : BuildError) {l1 l2 : List (κ × ν)}
    (hp : l1.Perm l2) :
    buildHashTable kv err l1 = buildHashTable kv err l2 := by
  unfold buildHashTable
  rw [singleHashBuild_eq_of_perm kv hp, nestedHashBuild_eq_of_perm kv hp]

/-- Inserting into the association map either keeps the key set (key
already present) or appends the new key at the end. -/
theorem insertIrq_map_fst (m : List (InterruptOwner × List InterruptNum))
    (o : InterruptOwner) (i : InterruptNum) :
    (insertIrq m o i).map Prod.fst =
      if o ∈ m.map Prod.fst then m.map Prod.fst
      else m.map Prod.fst ++ [o] := by
  induction m with
  | nil => simp [insertIrq]
  | cons p rest ih =>
    obtain ⟨p1, ps⟩ := p
    by_cases h : p1 = o
    · subst h
      simp [insertIrq]
    · have hne : ¬o = p1 := fun he => h he.symm
      by_cases h2 : o ∈ rest.map Prod.fst
      · simp [insertIrq, h, ih, h2, hne]
      · simp [insertIrq, h, ih, h2, hne]

/-- Inserting into the association map preserves key-set distinctness. -/
theorem insertIrq_nodup (m : List (InterruptOwner × List InterruptNum))
    (o : InterruptOwner) (i : InterruptNum)
    (h : (m.map Prod.fst).Nodup) :
    ((insertIrq m o i).map Prod.fst).Nodup := by
  rw [insertIrq_map_fst]
  by_cases hmem : o ∈ m.map Prod.fst
  · simpa [hmem]
  · simp only [hmem, if_false, List.nodup_append]
    exact ⟨h, List.nodup_singleton o, by
      intro a ha hain
      rw [List.mem_singleton] at hain
      exact hmem (hain ▸ ha)⟩

/-- The key set of the owner → interrupt-list aggregation is
duplicate-free: each owner gets exactly one entry. -/
theorem perTaskIrqs_keys_nodup (irqs : List Interrupt) :
    ((perTaskIrqs irqs).map Prod.fst).Nodup := by
  suffices h : ∀ m : List (InterruptOwner × List InterruptNum),
      (m.map Prod.fst).Nodup →
      ((irqs.foldl (fun acc i => insertIrq acc i.owner i.irq) m).map
        Prod.fst).Nodup by
    exact h [] (by simp)
  induction irqs with
  | nil => intro m hm; simpa using hm
  | cons a rest ih =>
    intro m hm
    exact ih _ (insertIrq_nodup m a.owner a.irq hm)

/-- Inserting an interrupt appends it to its owner's value list (creating
the entry when absent). -/
theorem lookupOwner_insertIrq_self
    (m : List (InterruptOwner × List InterruptNum)) (o : InterruptOwner)
    (i : InterruptNum) :
    lookupOwner (insertIrq m o i) o =
      some ((lookupOwner m o).getD [] ++ [i]) := by
  induction m with
  | nil => simp [insertIrq, lookupOwner]
  | cons p rest ih =>
    obtain ⟨p1, ps⟩ := p
    by_cases h : p1 = o
    · subst h
      simp [insertIrq, lookupOwner]
    · have hb : (p1 == o) = false := beq_eq_false_iff_ne.mpr h
      simp [insertIrq, h, lookupOwner, List.find?, hb] at ih ⊢
      exact ih

/-- Inserting an interrupt for one owner leaves every other owner's value
list unchanged. -/
theorem lookupOwner_insertIrq_ne
    (m : List (InterruptOwner × List InterruptNum)) (o oo : InterruptOwner)
    (i : InterruptNum) (h : o ≠ oo) :
    lookupOwner (insertIrq m o i) oo = lookupOwner m oo := by
  have hb : (o == oo) = false := beq_eq_false_iff_ne.mpr h
  induction m with
  | nil => simp [insertIrq, lookupOwner, List.find?, hb]
  | cons p rest ih =>
    obtain ⟨p1, ps⟩ := p
    by_cases h1 : p1 = o
    · subst h1
      simp [insertIrq, lookupOwner, List.find?, hb]
    · by_cases h2 : p1 = oo
      · subst h2
        simp [insertIrq, h1, lookupOwner, List.find?]
      · have hb2 : (p1 == oo) = false := beq_eq_false_iff_ne.mpr h2
        simp [insertIrq, h1, h2, lookupOwner, List.find?, hb2] at ih ⊢
        exact ih

/-- Folding the interrupt list into the association map accumulates, for
every owner, exactly the interrupts assigned to it, in input order. -/
theorem perTaskIrqs_aux (irqs : List Interrupt) :
    ∀ (m : List (InterruptOwner × List InterruptNum)) (o : InterruptOwner),
      lookupOwner (irqs.foldl (fun acc i => insertIrq acc i.owner i.irq) m) o =
        if (lookupOwner m o).isSome ∨ o ∈ irqs.map Interrupt.owner then
          some ((lookupOwner m o).getD []
            ++ (irqs.filter fun i => i.owner == o).map Interrupt.irq)
        else none := by
  induction irqs with
  | nil =>
    intro m o
    cases h : lookupOwner m o <;> simp [h]
  | cons a rest ih =>
    intro m o
    simp only [List.foldl_cons]
    rw [ih]
    by_cases h : a.owner = o
    · have h1 : lookupOwner (insertIrq m a.owner a.irq) o =
          some ((lookupOwner m o).getD [] ++ [a.irq]) := by
        rw [h]; exact lookupOwner_insertIrq_self m o a.irq
      rw [h1]
      simp [h, List.filter_cons]
    · have h1 : lookupOwner (insertIrq m a.owner a.irq) o =
          lookupOwner m o := lookupOwner_insertIrq_ne m a.owner o a.irq h
      rw [h1]
      have hne : ¬o = a.owner := fun he => h he.symm
      simp [List.filter_cons, h, hne, beq_iff_eq]

/-- The owner → interrupt-list aggregation: each owner present in the
input maps to the list of its interrupts in input order; absent owners
have no entry. -/
theorem perTaskIrqs_lookup (irqs : List Interrupt) (o : InterruptOwner) :
    lookupOwner (perTaskIrqs irqs) o =
      if o ∈ irqs.map Interrupt.owner then
        some ((irqs.filter fun i => i.owner == o).map Interrupt.irq)
      else none := by
  have h := perTaskIrqs_aux irqs [] o
  simpa [perTaskIrqs, lookupOwner] using h

/-- The owner key embedding is injective, so sorting owners by it is a
total order on owners. -/
theorem ownerKey_injective : Function.Injective ownerKey := by
  intro a b h
  obtain ⟨at1, an1⟩ := a
  obtain ⟨at2, an2⟩ := b
  have hpair := Nat.pair_eq_pair.mp h
  simp only [InterruptOwner.mk.injEq]
  exact hpair

/-- The modelled deserializer only ever returns the document it was
given. -/
theorem deserializeKconfig_eq_some {raw cfg : KernelConfig}
    (h : deserializeKconfig raw = some cfg) : cfg = raw := by
  by_cases hv : (raw.tasks.all
        (fun t => taskFlagsValid t.flags
          && t.regions.length == REGIONS_PER_TASK)
      && raw.regions.all fun r => regionAttrsValid r.attributes) = true
  · simp [deserializeKconfig, hv] at h
    exact h.symm
  · simp [deserializeKconfig, hv] at h

/-- The emitted lookup tables do not depend on the iteration order of the
HashMap behind per_task_irqs: any two permutations of the aggregated
owner-entry list (with its duplicate-free key set) build identical
tables. -/
theorem buildTables_eq_of_perm (target : List Char)
    (irqE : List (InterruptNum × InterruptOwner))
    {o1 o2 : List (InterruptOwner × List InterruptNum)}
    (hp : o1.Perm o2) (hnd : (o1.map Prod.fst).Nodup) :
    buildTables target irqE o1 = buildTables target irqE o2 := by
  by_cases h6 : thumbv6m.isPrefixOf target = true
  · simp only [buildTables, h6, if_true]
    rw [sortedListBuild_eq_of_perm ownerKey ownerKey_injective hp hnd]
  · by_cases h7 : (thumbv7m.isPrefixOf target || thumbv7em.isPrefixOf target
        || thumbv8m.isPrefixOf target) = true
    · simp only [buildTables, h6, h7, if_true, Bool.false_eq_true, if_false]
      rw [buildHashTable_eq_of_perm ownerKey .taskMapBuildFailed hp]
    · simp only [buildTables, h6, h7, Bool.false_eq_true, if_false]

/-- C1: For every fixed input (image identifier, security flag, target
string, and kernel configuration document), two runs of the generator
produce byte-identical output: the only run-to-run nondeterminism in
build.rs is the iteration order of the HashMap behind per_task_irqs
(lines 154-158), and for any two admissible orders the emitted consts.rs
and kconfig.rs contents are equal. -/
theorem build_output_deterministic (env : Env) (cfg : KernelConfig)
    (o1 o2 : List (InterruptOwner × List InterruptNum))
    (hcfg : env.hubrisKconfig = some cfg)
    (h1 : o1.Perm (perTaskIrqs cfg.irqs))
    (h2 : o2.Perm (perTaskIrqs cfg.irqs)) :
    mainBuild env o1 = mainBuild env o2 := by
  have hp : o1.Perm o2 := h1.trans h2.symm
  have hnd : (o1.map Prod.fst).Nodup :=
    ((h1.map Prod.fst).nodup_iff).mpr (perTaskIrqs_keys_nodup cfg.irqs)
  simp only [mainBuild, generateStatics, hcfg]
  cases himg : imageIdOf env with
  | none => rfl
  | some imageId =>
    cases hdes : deserializeKconfig cfg with
    | none => rfl
    | some cfg2 =>
      have hc2 : cfg2 = cfg := deserializeKconfig_eq_some hdes
      subst hc2
      simp only [sortedListBuild_eq_of_perm ownerKey ownerKey_injective hp hnd,
        buildHashTable_eq_of_perm ownerKey BuildError.taskMapBuildFailed hp]

/-- Witness for C1: a two-owner, three-interrupt configuration built with
the aggregation list delivered in two different orders produces identical
output. -/
theorem build_output_deterministic_witness :
    envThreeIrqs.hubrisKconfig = some cfgThreeIrqs ∧
    mainBuild envThreeIrqs ((perTaskIrqs cfgThreeIrqs.irqs).reverse) =
      mainBuild envThreeIrqs (perTaskIrqs cfgThreeIrqs.irqs) :=
  ⟨rfl, build_output_deterministic envThreeIrqs cfgThreeIrqs _ _ rfl
    (by decide) (by decide)⟩

/-- C2: the interrupt→owner key set handed to the table builder has one
entry per interrupt assignment, at the assignment's position, pairing the
assignment's interrupt number with exactly its declared owner — and
nothing else. -/
theorem irqTaskMap_exact (irqs : List Interrupt) :
    (irqTaskMap irqs).length = irqs.length ∧
    ∀ j : Nat, (irqTaskMap irqs)[j]? = (irqs[j]?).map fun a => (a.irq, a.owner) := by
  constructor
  · simp [irqTaskMap]
  · intro j
    simp [irqTaskMap]

/-- C3 counterexample: in `cfgOutOfOrder` the single owner's aggregated
value list is [6, 5] — the assignments' input order — and the sorted list
[5, 6] required by the claim is not an entry of the derived mapping. -/
theorem taskIrqMap_value_not_sorted :
    perTaskIrqs cfgOutOfOrder.irqs =
      [(⟨0, 1⟩, [⟨6⟩, ⟨5⟩])] ∧
    ¬((⟨0, 1⟩, [⟨5⟩, ⟨6⟩]) ∈ perTaskIrqs cfgOutOfOrder.irqs) := by
  decide

/-- C3 (amended): for every owner appearing in the interrupt-assignment
list, the derived owner→interrupt-set mapping contains exactly one entry
for that owner, whose value is the list of all interrupt numbers owned by
that owner in the order the assignments appear in the input (build.rs
pushes them in iteration order and never sorts them). -/
theorem taskIrqMap_entry (irqs : List Interrupt) (o : InterruptOwner)
    (h : o ∈ irqs.map Interrupt.owner) :
    (perTaskIrqs irqs).countP (fun p => p.1 == o) = 1 ∧
    (o, (irqs.filter fun i => i.owner == o).map Interrupt.irq) ∈
      perTaskIrqs irqs := by
  have hl := perTaskIrqs_lookup irqs o
  rw [if_pos h] at hl
  unfold lookupOwner at hl
  cases hf : (perTaskIrqs irqs).find? fun p => p.1 == o with
  | none => rw [hf] at hl; simp at hl
  | some pr =>
    rw [hf] at hl
    have hpr2 : pr.2 = (irqs.filter fun i => i.owner == o).map Interrupt.irq := by
      simpa using hl
    have hbeq := List.find?_some hf
    have hpr1 : pr.1 = o := eq_of_beq hbeq
    have hmem := List.mem_of_find?_eq_some hf
    constructor
    · have hkey : o ∈ (perTaskIrqs irqs).map Prod.fst :=
        hpr1 ▸ List.mem_map_of_mem Prod.fst hmem
      have hnd := perTaskIrqs_keys_nodup irqs
      have hc : ((perTaskIrqs irqs).map Prod.fst).count o = 1 :=
        List.count_eq_one_of_mem hnd hkey
      rw [List.count_eq_countP, List.countP_map] at hc
      exact hc
    · have hpre : pr = (o, (irqs.filter fun i => i.owner == o).map Interrupt.irq) :=
        Prod.ext hpr1 hpr2
      exact hpre ▸ hmem

/-- Witness for C3 (amended): owner (0, 1) of `cfgThreeIrqs` has exactly
one entry, holding its interrupts in input order. -/
theorem taskIrqMap_entry_witness :
    (⟨0, 1⟩ : InterruptOwner) ∈ cfgThreeIrqs.irqs.map Interrupt.owner ∧
    (perTaskIrqs cfgThreeIrqs.irqs).countP
      (fun p => p.1 == (⟨0, 1⟩ : InterruptOwner)) = 1 ∧
    ((⟨0, 1⟩ : InterruptOwner),
      (cfgThreeIrqs.irqs.filter fun i => i.owner == ⟨0, 1⟩).map Interrupt.irq) ∈
      perTaskIrqs cfgThreeIrqs.irqs :=
  ⟨by decide, taskIrqMap_entry cfgThreeIrqs.irqs ⟨0, 1⟩ (by decide)⟩

/-- C7: the security-constant selector is total with exactly two outputs:
it always returns 0xFFFFFFAC or 0xFFFFFFED; the flag value "0" selects
0xFFFFFFAC while an absent flag or any other string selects 0xFFFFFFED
(absence defaults to secure), so "0" and absent map to different
outputs. -/
theorem excReturnConst_total (s : Option (List Char)) :
    (excReturnConst s = 0xFFFFFFAC ∨ excReturnConst s = 0xFFFFFFED) ∧
    excReturnConst s = (if s = some ['0'] then 0xFFFFFFAC else 0xFFFFFFED) ∧
    excReturnConst (some ['0']) ≠ excReturnConst none := by
  refine ⟨?_, ?_, by decide⟩
  · cases s with
    | none => exact Or.inr rfl
    | some v =>
      by_cases h : v = ['0'] <;> simp [excReturnConst, h]
  · cases s with
    | none => simp [excReturnConst]
    | some v =>
      by_cases h : v = ['0'] <;> simp [excReturnConst, h]

/-- C8 counterexample: `cfgIndexSkew` is accepted by the build (the run
completes without error), yet the descriptor written at position 0
declares index 1, so the emitted index fields are not the positions. -/
theorem task_index_position_mismatch :
    (mainBuild envIndexSkew []).2 = none ∧
    (emittedTaskDescs cfgIndexSkew).map EmittedTaskDesc.index ≠
      List.range (emittedTaskDescs cfgIndexSkew).length := by
  decide

/-- C8 (amended): the index field written into the descriptor at position
j equals the declared index field of the j-th task of the input
configuration; build.rs line 92 copies it verbatim and never checks it
against the position. -/
theorem task_index_emitted_verbatim (cfg : KernelConfig) (j : Nat) :
    ((emittedTaskDescs cfg)[j]?).map EmittedTaskDesc.index =
      (cfg.tasks[j]?).map TaskDesc.index := by
  simp only [emittedTaskDescs, List.getElem?_map, Option.map_map]
  cases cfg.tasks[j]? <;> simp [emitTaskDesc]

/-- C4: encoding selection is a function of the target family only: a
thumbv6m-prefixed target builds both tables with the sorted-list encoding
(no hash construction is attempted and construction cannot fail), while a
thumbv7m/thumbv7em/thumbv8m-prefixed target runs the hash chain for each
of the two tables — attempting the single-level perfect hash first,
regardless of key-set size: whenever it succeeds the emitted table is the
single-level one. -/
theorem encoding_selected_by_target (target : List Char)
    (irqE : List (InterruptNum × InterruptOwner))
    (taskE : List (InterruptOwner × List InterruptNum)) :
    (thumbv6m.isPrefixOf target = true →
      buildTables target irqE taskE =
        .ok ⟨.sorted (sortedListBuild inKey irqE),
          .sorted (sortedListBuild ownerKey taskE)⟩) ∧
    ((thumbv7m.isPrefixOf target || thumbv7em.isPrefixOf target
        || thumbv8m.isPrefixOf target) = true →
      (buildTables target irqE taskE =
        match buildHashTable ownerKey .taskMapBuildFailed taskE with
        | .error e => .error e
        | .ok tt =>
          match buildHashTable inKey .irqMapBuildFailed irqE with
          | .error e => .error e
          | .ok it => .ok ⟨it, tt⟩) ∧
      (∀ st, singleHashBuild ownerKey taskE = some st →
        buildHashTable ownerKey .taskMapBuildFailed taskE = .ok (.single st)) ∧
      (∀ st, singleHashBuild inKey irqE = some st →
        buildHashTable inKey .irqMapBuildFailed irqE = .ok (.single st))) := by
  constructor
  · intro h6
    simp [buildTables, h6]
  · intro h7
    have h6 := thumbv6m_isPrefixOf_eq_false h7
    refine ⟨by simp [buildTables, h6, h7], ?_, ?_⟩
    · intro st hst
      simp [buildHashTable, hst]
    · intro st hst
      simp [buildHashTable, hst]

/-- Witness for C4, at a thumbv7m target with one-entry key sets. -/
theorem encoding_selected_by_target_witness :
    (thumbv6m.isPrefixOf thumbv7m = true →
      buildTables thumbv7m entriesOneIrq entriesOneOwner =
        .ok ⟨.sorted (sortedListBuild inKey entriesOneIrq),
          .sorted (sortedListBuild ownerKey entriesOneOwner)⟩) ∧
    ((thumbv7m.isPrefixOf thumbv7m || thumbv7em.isPrefixOf thumbv7m
        || thumbv8m.isPrefixOf thumbv7m) = true →
      (buildTables thumbv7m entriesOneIrq entriesOneOwner =
        match buildHashTable ownerKey .taskMapBuildFailed entriesOneOwner with
        | .error e => .error e
        | .ok tt =>
          match buildHashTable inKey .irqMapBuildFailed entriesOneIrq with
          | .error e => .error e
          | .ok it => .ok ⟨it, tt⟩) ∧
      (∀ st, singleHashBuild ownerKey entriesOneOwner = some st →
        buildHashTable ownerKey .taskMapBuildFailed entriesOneOwner =
          .ok (.single st)) ∧
      (∀ st, singleHashBuild inKey entriesOneIrq = some st →
        buildHashTable inKey .irqMapBuildFailed entriesOneIrq =
          .ok (.single st))) :=
  encoding_selected_by_target thumbv7m entriesOneIrq entriesOneOwner

/-- C5: for the hash-capable path, whenever the single-level construction
fails for a table, the nested construction is attempted for that same
table — the single-level failure is not reported; a nested success yields
the nested table, and a nested failure aborts with the table's
construction error. -/
theorem single_failure_falls_back {κ ν : Type} [DecidableEq κ]
    [DecidableEq ν] (kv : κ → Nat) (err : BuildError)
    (entries : List (κ × ν)) (h : singleHashBuild kv entries = none) :
    buildHashTable kv err entries =
      (match nestedHashBuild kv entries with
       | some t => .ok (.nested t)
       | none => .error err) := by
  simp only [buildHashTable, h]

/-- Witness for C5: on `entriesFallback` the single-level search exhausts
its budget and the nested table is emitted instead. -/
theorem single_failure_falls_back_witness :
    singleHashBuild inKey entriesFallback = none ∧
    buildHashTable inKey .irqMapBuildFailed entriesFallback =
      (match nestedHashBuild inKey entriesFallback with
       | some t => .ok (.nested t)
       | none => .error .irqMapBuildFailed) :=
  ⟨by decide, single_failure_falls_back inKey .irqMapBuildFailed
    entriesFallback (by decide)⟩

/-- C6: a target whose name begins with none of thumbv6m, thumbv7m,
thumbv7em, thumbv8m aborts the build fatally (the panic at build.rs line
331, modelled as a fatal error): table construction yields the
unknown-target error, the run ends with an error, and no lookup table in
any encoding is written. -/
theorem unknown_target_aborts (env : Env) (target : List Char)
    (irqE : List (InterruptNum × InterruptOwner))
    (o : List (InterruptOwner × List InterruptNum))
    (h6 : thumbv6m.isPrefixOf target = false)
    (h7 : thumbv7m.isPrefixOf target = false)
    (h7e : thumbv7em.isPrefixOf target = false)
    (h8 : thumbv8m.isPrefixOf target = false)
    (henv : env.target = target) :
    buildTables target irqE o = .error (.unknownTarget target) ∧
    (mainBuild env o).2.isSome = true ∧
    noTables (mainBuild env o).1 = true := by
  have hbt : ∀ iE : List (InterruptNum × InterruptOwner),
      buildTables target iE o = .error (.unknownTarget target) := by
    intro iE
    simp [buildTables, h6, h7, h7e, h8]
  subst henv
  refine ⟨hbt irqE, ?_⟩
  simp only [mainBuild]
  unfold generateStatics
  split
  · exact ⟨rfl, rfl⟩
  · split
    · exact ⟨rfl, rfl⟩
    · split
      · exact ⟨rfl, rfl⟩
      · simp only [h6, h7, h7e, h8, Bool.or_self, Bool.false_eq_true,
          if_false]
        exact ⟨rfl, rfl⟩

/-- Witness for C6: an x86 target string. -/
theorem unknown_target_aborts_witness :
    buildTables ['x', '8', '6'] entriesOneIrq
        (perTaskIrqs cfgThreeIrqs.irqs) =
      .error (.unknownTarget ['x', '8', '6']) ∧
    (mainBuild envUnknownTarget (perTaskIrqs cfgThreeIrqs.irqs)).2.isSome = true ∧
    noTables (mainBuild envUnknownTarget (perTaskIrqs cfgThreeIrqs.irqs)).1 = true :=
  unknown_target_aborts envUnknownTarget ['x', '8', '6'] entriesOneIrq
    (perTaskIrqs cfgThreeIrqs.irqs) (by decide) (by decide) (by decide)
    (by decide) rfl

/-- C9: a structurally invalid task-flags or region-attributes bit pattern
makes the build fail during deserialization, before kconfig.rs is even
created: the run ends with an error and no descriptor (with or without the
invalid pattern) is written. -/
theorem invalid_bits_abort (env : Env) (raw : KernelConfig)
    (o : List (InterruptOwner × List InterruptNum))
    (henv : env.hubrisKconfig = some raw)
    (hbad : raw.tasks.all (fun t => taskFlagsValid t.flags) = false ∨
      raw.regions.all (fun r => regionAttrsValid r.attributes) = false) :
    (mainBuild env o).2.isSome = true ∧
    (mainBuild env o).1.kconfig = none := by
  have hdes : deserializeKconfig raw = none := by
    rcases hbad with hb | hb
    · have hall : raw.tasks.all
          (fun t => taskFlagsValid t.flags
            && t.regions.length == REGIONS_PER_TASK) = false := by
        rw [List.all_eq_false] at hb ⊢
        obtain ⟨t, ht, hft⟩ := hb
        refine ⟨t, ht, ?_⟩
        intro hc
        rw [Bool.and_eq_true] at hc
        exact hft hc.1
      simp [deserializeKconfig, hall]
    · simp [deserializeKconfig, hb]
  simp only [mainBuild, generateStatics, henv, hdes]
  cases himg : imageIdOf env with
  | none => exact ⟨rfl, rfl⟩
  | some n => exact ⟨rfl, rfl⟩

/-- Witness for C9: a task flags pattern with the undefined bit 2 set. -/
theorem invalid_bits_abort_witness :
    (mainBuild envBadFlags []).2.isSome = true ∧
    (mainBuild envBadFlags []).1.kconfig = none :=
  invalid_bits_abort envBadFlags cfgBadFlags [] rfl (Or.inl (by decide))

/-- C10: consts.rs is created and completely written no matter how the
rest of the build goes (it is produced before the image id or config
document is read); a malformed HUBRIS_IMAGE_ID or HUBRIS_KCONFIG fails the
build only with consts.rs complete and kconfig.rs never created; and
because kconfig.rs is written incrementally in place, a table construction
failure on a hash-capable target fails the build leaving kconfig.rs
partially written: a task→irq construction failure leaves exactly the
pre-table content, and an irq→task construction failure leaves the
pre-table content followed by the task→irq table that build.rs lines
236-273 already wrote. -/
theorem consts_complete_before_statics (env : Env) (n : Nat)
    (cfg : KernelConfig) (e : BuildError)
    (tt : Table InterruptOwner (List InterruptNum))
    (o : List (InterruptOwner × List InterruptNum)) :
    ((mainBuild env o).1.consts = some (excReturnConst env.hubrisSecure)) ∧
    ((imageIdOf env = none ∨ env.hubrisKconfig = none) →
      (mainBuild env o).2.isSome = true ∧
      (mainBuild env o).1.kconfig = none) ∧
    (imageIdOf env = some n → env.hubrisKconfig = some cfg →
      deserializeKconfig cfg = some cfg →
      (thumbv7m.isPrefixOf env.target || thumbv7em.isPrefixOf env.target
        || thumbv8m.isPrefixOf env.target) = true →
      (buildHashTable ownerKey .taskMapBuildFailed o = .error e →
        mainBuild env o =
          (⟨some (excReturnConst env.hubrisSecure),
            some (preTableSteps n cfg)⟩, some e)) ∧
      (buildHashTable ownerKey .taskMapBuildFailed o = .ok tt →
        buildHashTable inKey .irqMapBuildFailed (irqTaskMap cfg.irqs) =
          .error e →
        mainBuild env o =
          (⟨some (excReturnConst env.hubrisSecure),
            some (preTableSteps n cfg ++ [.taskIrqTable tt])⟩, some e))) := by
  refine ⟨?_, ?_, ?_⟩
  · simp only [mainBuild]
    unfold generateStatics
    split
    · rfl
    · split
      · rfl
      · split
        · rfl
        · split
          · rfl
          · split
            · split
              · rfl
              · split
                · rfl
                · rfl
            · rfl
  · intro hdisj
    simp only [mainBuild]
    unfold generateStatics
    split
    · exact ⟨rfl, rfl⟩
    · rename_i n2 himg
      split
      · exact ⟨rfl, rfl⟩
      · rename_i raw hk
        rcases hdisj with hd | hd
        · rw [himg] at hd
          exact absurd hd (by simp)
        · rw [hk] at hd
          exact absurd hd (by simp)
  · intro himg hk hdes hfam
    have h6 := thumbv6m_isPrefixOf_eq_false hfam
    constructor
    · intro hbt
      simp only [mainBuild, generateStatics, himg, hk, hdes, h6, hfam,
        Bool.false_eq_true, if_false, if_true, hbt]
      rfl
    · intro hbtt hbi
      simp only [mainBuild, generateStatics, himg, hk, hdes, h6, hfam,
        Bool.false_eq_true, if_false, if_true, hbtt, hbi]
      rfl

/-- Witness for C10: a thumbv7m build with a duplicated interrupt number;
the task→irq table is built (and written) successfully, both hash
constructions then fail for the irq→task table, and the failing run leaves
the complete consts.rs plus the partial kconfig.rs holding the pre-table
content and the already written task→irq table. -/
theorem consts_complete_before_statics_witness :
    ((mainBuild envDupIrq (perTaskIrqs cfgDupIrq.irqs)).1.consts =
      some (excReturnConst envDupIrq.hubrisSecure)) ∧
    ((imageIdOf envDupIrq = none ∨ envDupIrq.hubrisKconfig = none) →
      (mainBuild envDupIrq (perTaskIrqs cfgDupIrq.irqs)).2.isSome = true ∧
      (mainBuild envDupIrq (perTaskIrqs cfgDupIrq.irqs)).1.kconfig = none) ∧
    (imageIdOf envDupIrq = some 1 → envDupIrq.hubrisKconfig = some cfgDupIrq →
      deserializeKconfig cfgDupIrq = some cfgDupIrq →
      (thumbv7m.isPrefixOf envDupIrq.target
        || thumbv7em.isPrefixOf envDupIrq.target
        || thumbv8m.isPrefixOf envDupIrq.target) = true →
      (buildHashTable ownerKey .taskMapBuildFailed
          (perTaskIrqs cfgDupIrq.irqs) = .error .irqMapBuildFailed →
        mainBuild envDupIrq (perTaskIrqs cfgDupIrq.irqs) =
          (⟨some (excReturnConst envDupIrq.hubrisSecure),
            some (preTableSteps 1 cfgDupIrq)⟩, some .irqMapBuildFailed)) ∧
      (buildHashTable ownerKey .taskMapBuildFailed
          (perTaskIrqs cfgDupIrq.irqs) = .ok taskTableDupIrq →
        buildHashTable inKey .irqMapBuildFailed
            (irqTaskMap cfgDupIrq.irqs) = .error .irqMapBuildFailed →
        mainBuild envDupIrq (perTaskIrqs cfgDupIrq.irqs) =
          (⟨some (excReturnConst envDupIrq.hubrisSecure),
            some (preTableSteps 1 cfgDupIrq
              ++ [.taskIrqTable taskTableDupIrq])⟩,
            some .irqMapBuildFailed))) :=
  consts_complete_before_statics envDupIrq 1 cfgDupIrq .irqMapBuildFailed
    taskTableDupIrq (perTaskIrqs cfgDupIrq.irqs)

end Hubris
